import Mathlib

/-!
Verification of the RedditBotRiftbound repository: a shallow embedding of
`src/reddit_api.py` (tag extraction), `src/riftbound_api.py` (card lookup over
HTTP) and `src/main.py` (per-item processing, dedup, cache, reply dispatch),
with theorems settling the frozen claims about the spec.

Python values appearing in JSON payloads are modelled by `PyVal`; the one
side-effecting primitive `_http_get_json` is modelled by a function-valued
`Net` collaborator whose `Except.error` case stands for a raised exception.
Side effects (console prints, resolver invocations, reply posts) are reified
as an event trace.  String primitives (`str.strip`, `str.lower`,
`urllib.parse.quote`, `str.format` with a single `\x7bname\x7d` field,
Python `repr` of a string list) are modelled for the ASCII strings the bot
manipulates.
-/

namespace RiftBot

/-- Model of a Python value as found in decoded JSON payloads.  `PyVal.none`
is Python `None`;  `dict` is an association list (Python dict keys are
unique, lookup takes the first binding). -/
inductive PyVal where
  | none : PyVal
  | bool : Bool → PyVal
  | int : Int → PyVal
  | str : String → PyVal
  | list : List PyVal → PyVal
  | dict : List (String × PyVal) → PyVal

/-- Python truthiness (`bool(v)`) for the modelled values. -/
def pyTruthy : PyVal → Bool
  | .none => false
  | .bool b => b
  | .int n => n != 0
  | .str s => s ≠ ""
  | .list [] => false
  | .list (_ :: _) => true
  | .dict [] => false
  | .dict (_ :: _) => true

/-- Python `d.get(k)` with default `None`. -/
def dictGet (kvs : List (String × PyVal)) (k : String) : PyVal :=
  match kvs.find? (fun kv => kv.1 = k) with
  | some kv => kv.2
  | Option.none => .none

/-- Python `a or b` where `a` is a `PyVal` and `b` a string (used for
`card.get("name") or name`). -/
def pyOrVal (a : PyVal) (b : String) : PyVal :=
  if pyTruthy a then a else .str b

/-- `v is None` as a boolean (no decidable equality is needed on `PyVal`). -/
def isNoneVal : PyVal → Bool
  | .none => true
  | _ => false

/-- Characters stripped by Python `str.strip()` (the ASCII whitespace set;
the bot only strips ASCII). -/
def isPySpace (c : Char) : Bool :=
  c = ' ' || c = '\t' || c = '\n' || c = '\r' || c = '\x0b' || c = '\x0c'

/-- Python `str.strip()` on a character list. -/
def pyStripL (l : List Char) : List Char :=
  ((l.dropWhile isPySpace).reverse.dropWhile isPySpace).reverse

/-- Python `str.strip()`. -/
def pyStrip (s : String) : String := ⟨pyStripL s.data⟩

/-- Python `str.lower()` (ASCII model). -/
def pyLower (s : String) : String := ⟨s.data.map Char.toLower⟩

/-- Truthiness of an `Optional[str]` (`None` and `""` are falsy). -/
def strTruthy : Option String → Bool
  | Option.none => false
  | some s => s ≠ ""

/-- Python `a or b` for `a : Optional[str]`. -/
def pyOrStr (a : Option String) (b : String) : String :=
  match a with
  | some s => if s = "" then b else s
  | Option.none => b

/-- UTF-8 bytes of a character (as naturals), for percent-encoding. -/
def utf8Bytes (c : Char) : List Nat :=
  let n := c.toNat
  if n < 0x80 then [n]
  else if n < 0x800 then [0xC0 + n / 0x40, 0x80 + n % 0x40]
  else if n < 0x10000 then
    [0xE0 + n / 0x1000, 0x80 + (n / 0x40) % 0x40, 0x80 + n % 0x40]
  else
    [0xF0 + n / 0x40000, 0x80 + (n / 0x1000) % 0x40,
     0x80 + (n / 0x40) % 0x40, 0x80 + n % 0x40]

/-- Upper-case hex digit. -/
def hexDigit (n : Nat) : Char :=
  if n < 10 then Char.ofNat (48 + n) else Char.ofNat (65 + n - 10)

/-- `urllib.parse.quote` treatment of one character: unreserved characters
(ASCII letters, digits, `_.-~`) and the default-safe `/` pass through,
everything else is percent-encoded byte by byte. -/
def quoteChar (c : Char) : List Char :=
  if c.isAlpha || c.isDigit || c = '_' || c = '.' || c = '-' || c = '~' || c = '/'
  then [c]
  else (utf8Bytes c).flatMap (fun b => ['%', hexDigit (b / 16), hexDigit (b % 16)])

/-- `urllib.parse.quote(s)`. -/
def urlquote (s : String) : String := ⟨s.data.flatMap quoteChar⟩

/-- Left-to-right, non-overlapping replacement of the (non-empty) pattern
`pat` by `rep`, on character lists.  Models `str.format` instantiating the
single `\x7bname\x7d` field of the fallback path template (for templates made of
literal text and that field, `format` is literal substitution). -/
def replaceAllL (pat rep : List Char) : List Char → List Char
  | [] => []
  | a :: rest =>
    if h : pat ≠ [] ∧ pat.isPrefixOf (a :: rest) then
      rep ++ replaceAllL pat rep ((a :: rest).drop pat.length)
    else
      a :: replaceAllL pat rep rest
termination_by l => l.length
decreasing_by
  · have hle : pat.length ≤ (a :: rest).length :=
      (List.isPrefixOf_iff_prefix.mp h.2).length_le
    have hpos : 0 < pat.length := List.length_pos.mpr h.1
    simp only [List.length_drop]
    simp only [List.length_cons] at *
    omega
  · simp

/-- String version of `replaceAllL`. -/
def replaceAll (s pat rep : String) : String :=
  ⟨replaceAllL pat.data rep.data s.data⟩

/-! ## riftbound_api.py -/

/-- Model of `_http_get_json`: the network collaborator maps a host and a
path to either `Except.error ()` — an exception raised while connecting,
sending, reading or utf-8-decoding (everything `_http_get_json` does *not*
catch) — or `Except.ok (status, payload)` where `payload` is `PyVal.none`
for an empty body, the decoded JSON value, or (after a caught
`JSONDecodeError`) the raw body as a `PyVal.str`. -/
def Net : Type := String → String → Except Unit (Nat × PyVal)

/-- `_first_card_obj(payload)`: extract the single card object from a
payload that is an object, an object with a non-empty `data` list, or a
non-empty list. -/
def first_card_obj : PyVal → Option (List (String × PyVal))
  | .dict kvs =>
    match dictGet kvs "data" with
    | .list (first :: _) =>
      match first with
      | .dict c => some c
      | _ => Option.none
    | _ => some kvs
  | .list (first :: _) =>
    match first with
    | .dict c => some c
    | _ => Option.none
  | _ => Option.none

/-- The common image field names tried by `_extract_image_url`. -/
def imageKeys : List String :=
  ["image", "imageUrl", "image_url", "imageURI", "imageUri", "image_uri"]

/-- The preference order inside a nested `images` mapping. -/
def imagesSubKeys : List String := ["normal", "large", "small", "png", "default"]

/-- One probe of `_extract_image_url`: accept a string value with non-empty
strip, returning the stripped value. -/
def imageProbe (card : List (String × PyVal)) (k : String) : Option String :=
  match dictGet card k with
  | .str v => if pyStrip v ≠ "" then some (pyStrip v) else Option.none
  | _ => Option.none

/-- `_extract_image_url(card)`. -/
def extract_image_url (card : List (String × PyVal)) : Option String :=
  match imageKeys.findSome? (imageProbe card) with
  | some v => some v
  | Option.none =>
    match dictGet card "images" with
    | .dict images => imagesSubKeys.findSome? (imageProbe images)
    | _ => Option.none

/-- Normalized result of `search_card_details` (the non-empty dict it
builds; the empty dict `\x7b\x7d` is modelled as `Option.none` at the call sites). -/
structure CardDetails where
  raw : PyVal
  name : PyVal
  image_url : Option String
  source : String

/-- The four candidate paths, in source order. -/
def candidatePaths (encoded : String) : List String :=
  ["/cards/name?name=" ++ encoded,
   "/cards/name/" ++ encoded,
   "/cards/search?name=" ++ encoded,
   "/cards?name=" ++ encoded]

/-- Details dict built from a successfully extracted card object. -/
def mkDetails (name : String) (card : List (String × PyVal)) : CardDetails :=
  { raw := .dict card
    name := pyOrVal (dictGet card "name") name
    image_url := extract_image_url card
    source := "riftbound" }

/-- The candidate loop of `search_card_details`, threading `last_payload`
(initially Python `None` = `PyVal.none`). -/
def tryCandidates (net : Net) (host name : String) :
    List String → PyVal → Except Unit (Option CardDetails)
  | [], lastPayload =>
    if isNoneVal lastPayload then .ok Option.none
    else
      .ok (some { raw := lastPayload, name := .str name,
                  image_url := Option.none, source := "riftbound" })
  | path :: rest, _ =>
    match net host path with
    | .error e => .error e
    | .ok (status, payload) =>
      if status = 200 ∧ ¬ isNoneVal payload then
        match first_card_obj payload with
        | Option.none => tryCandidates net host name rest payload
        | some card => .ok (some (mkDetails name card))
      else tryCandidates net host name rest payload

/-- `search_card_details(card_name)`.  `Except.error ()` models a raised
exception (propagated out of the unguarded `_http_get_json` call);
`.ok Option.none` models the empty dict `\x7b\x7d`. -/
def search_card_details (net : Net) (host : String) (card_name : String) :
    Except Unit (Option CardDetails) :=
  let name := pyStrip card_name
  if name = "" then .ok Option.none
  else tryCandidates net host name (candidatePaths (urlquote name)) PyVal.none

/-- `fallback_search_card_image(card_name)`, with the `APITCG_HOST` and
`APITCG_PATH_TEMPLATE` environment values passed explicitly. -/
def fallback_search_card_image (net : Net) (apitcgHost apitcgTemplate : String)
    (card_name : String) : Except Unit (Option String) :=
  let host := pyStrip apitcgHost
  let tmpl := pyStrip apitcgTemplate
  if host = "" ∨ tmpl = "" then .ok Option.none
  else
    let name := pyStrip card_name
    if name = "" then .ok Option.none
    else
      match net host (replaceAll tmpl "\x7bname\x7d" (urlquote name)) with
      | .error e => .error e
      | .ok (status, payload) =>
        if status ≠ 200 ∨ isNoneVal payload then .ok Option.none
        else
          match first_card_obj payload with
          | Option.none => .ok Option.none
          | some card => .ok (extract_image_url card)

/-- `compose_card_reply(card_name, image_url, details)`.  Note the source
ignores `details` and tests `image_url` for truthiness. -/
def compose_card_reply (card_name : String) (image_url : Option String)
    (_details : Option CardDetails) : String :=
  let name := if pyStrip card_name = "" then "(unknown card)" else pyStrip card_name
  if strTruthy image_url then name ++ "\n\nImage: " ++ image_url.getD ""
  else name ++ "\n\nImage: (not found)"

/-! ## reddit_api.py: tag extraction

`_CARD_TAG_PATTERN` is the regex `\[\[([^\[\]]+)\]\]` and
`extract_card_tags` is `findall` followed by strip-and-drop-empty.
`findall` tries to match at each position; on success it records the group
and resumes at the match end, on failure it advances one character.  For
this pattern the greedy `[^\[\]]+` needs no backtracking: a shortened run
would end right before one of its own non-bracket characters, which can
never begin the required `]]`, so a match at a position exists iff the two
leading `[`s are followed by a non-empty maximal bracket-free run and then
`]]`. -/

/-- Characters allowed inside a tag: the regex class `[^\[\]]`. -/
def notBracket (c : Char) : Bool := !(c = '[' || c = ']')

/-- Attempt of `_CARD_TAG_PATTERN` at the start of `s`: on success, the
captured group and the remainder of the text after the match. -/
def headTagMatch : List Char → Option (List Char × List Char)
  | '[' :: '[' :: rest =>
    match rest.takeWhile notBracket, rest.dropWhile notBracket with
    | c :: cs, ']' :: ']' :: tail => some (c :: cs, tail)
    | _, _ => Option.none
  | _ => Option.none

/-- Fuelled scanner implementing `findall(_CARD_TAG_PATTERN, text)`: try a
match at the current position; on success record the group and resume
after the match, otherwise advance one character.  Each step strictly
shrinks the text, so fuel equal to the text length is always enough
(`scanTagsF_fuel` below). -/
def scanTagsF : Nat → List Char → List (List Char)
  | 0, _ => []
  | _ + 1, [] => []
  | fuel + 1, a :: rest =>
    match headTagMatch (a :: rest) with
    | some (c, tail) => c :: scanTagsF fuel tail
    | Option.none => scanTagsF fuel rest

/-- `findall(_CARD_TAG_PATTERN, text)`: scan left to right, non-overlapping. -/
def scanTags (s : List Char) : List (List Char) := scanTagsF s.length s

/-- `extract_card_tags(text)`: strip each raw match, drop the ones that
become empty, preserve order. -/
def extract_card_tags (text : String) : List String :=
  (scanTags text.data).filterMap fun m =>
    let c := pyStripL m
    if c = [] then Option.none else some (String.mk c)

/-! ## main.py -/

/-- Bot configuration (from `load_config`): the fields `maybe_reply`
consults. -/
structure Config where
  reply_enabled : Bool
  username : String
  password : String

/-- Ambient collaborators of one run: the network, the configured hosts,
the authenticated identity `me` (None if it could not be determined), and
whether a `thing.reply(text)` call raises (the exception is caught and
logged, so it is observationally irrelevant; it is kept so that this
irrelevance is a theorem). -/
structure Env where
  net : Net
  riftboundHost : String
  apitcgHost : String
  apitcgTemplate : String
  me : Option String
  replyFails : String → String → Bool

/-- Mutable bot state: `processed_fullnames` (insertion order kept) and
`card_cache`. -/
structure BotState where
  processed : List String
  cache : List (String × String)
deriving DecidableEq

/-- Observable side effects, in order: console prints, invocations of the
underlying card resolver (a cache miss in `resolve_card_cached`), and
invocations of the platform reply capability (`thing.reply`). -/
inductive Event where
  | printed : String → Event
  | resolverCall : String → Event
  | replyCall : String → String → Event
deriving DecidableEq

/-- Lookup in `card_cache`. -/
def cacheGet (cache : List (String × String)) (k : String) : Option String :=
  (cache.find? (fun kv => kv.1 = k)).map (fun kv => kv.2)

/-- `details.get("image_url") if details else None` (the non-empty details
dict always has the four fixed keys, so its truthiness is its being
`some`). -/
def detailsImage : Option CardDetails → Option String
  | some d => d.image_url
  | Option.none => Option.none

/-- `_unique_in_order(values)` (inner loop with its `seen` set). -/
def uniqueGo (seen : List String) : List String → List String
  | [] => []
  | v :: rest =>
    let key := pyLower (pyStrip v)
    if key = "" ∨ key ∈ seen then uniqueGo seen rest
    else pyStrip v :: uniqueGo (key :: seen) rest

/-- `_unique_in_order(values)`: dedup by stripped-lowercased key, keeping
first-seen order and the stripped first-seen spelling. -/
def unique_in_order (values : List String) : List String := uniqueGo [] values

/-- `resolve_card_cached(card_name)`.  Returns `(Option.none, events)` when
the underlying lookup raised (the exception propagates to the caller; the
shared state is unchanged, since the cache write only happens at the very
end), or `(some (msg, st'), events)` on completion.  A `resolverCall`
event is emitted on every cache miss. -/
def resolve_card_cached (env : Env) (st : BotState) (card_name : String) :
    Option (String × BotState) × List Event :=
  let key := pyLower (pyStrip card_name)
  match cacheGet st.cache key with
  | some msg => (some (msg, st), [])
  | Option.none =>
    match search_card_details env.net env.riftboundHost card_name with
    | .error _ => (Option.none, [.resolverCall card_name])
    | .ok details =>
      let image_url : Option String := detailsImage details
      let image2 : Except Unit (Option String) :=
        if strTruthy image_url then .ok image_url
        else fallback_search_card_image env.net env.apitcgHost env.apitcgTemplate card_name
      match image2 with
      | .error _ => (Option.none, [.resolverCall card_name])
      | .ok image_url2 =>
        let msg := compose_card_reply card_name image_url2 details
        (some (msg, { st with cache := st.cache ++ [(key, msg)] }),
         [.resolverCall card_name])

/-- The item a reply would be posted to, as `maybe_reply` sees it. -/
structure Thing where
  author : Option String
  fullId : String

/-- The list comprehension in `maybe_reply`: resolve every name in order,
threading the cache; a raise aborts the comprehension (keeping the cache
entries already written) and propagates. -/
def resolveAll (env : Env) (st : BotState) :
    List String → BotState × List String × List Event × Bool
  | [] => (st, [], [], true)
  | n :: rest =>
    match resolve_card_cached env st n with
    | (some (msg, st1), ev) =>
      let (st2, msgs, evs, ok) := resolveAll env st1 rest
      (st2, msg :: msgs, ev ++ evs, ok)
    | (Option.none, ev) => (st, [], ev, false)

/-- `maybe_reply(thing, card_names)`.  The boolean is false iff an
exception escaped (only resolution can raise; a reply-post failure is
caught and logged). -/
def maybe_reply (cfg : Config) (env : Env) (st : BotState) (thing : Thing)
    (card_names : List String) : BotState × List Event × Bool :=
  if ¬ cfg.reply_enabled then (st, [], true)
  else if cfg.username = "" ∨ cfg.password = "" then (st, [], true)
  else if (match env.me, thing.author with
           | some m, some a => pyLower a == pyLower m
           | _, _ => false) then (st, [], true)
  else
    match resolveAll env st (unique_in_order card_names) with
    | (st1, lines, evs, true) =>
      if lines = [] then (st1, evs, true)
      else
        let text := String.intercalate "\n\n---\n\n" lines
        let _ := env.replyFails thing.fullId text
        (st1, evs ++ [.replyCall thing.fullId text], true)
    | (st1, _, evs, false) => (st1, evs, false)

/-- A single-quote character (as used by Python `repr` of a string). -/
def squote : String := String.mk [Char.ofNat 39]

/-- Python `repr` of a `list[str]`, as interpolated by the f-strings of the
print lines (modelled for strings without quotes, backslashes or control
characters, which is what stripped card tags are here). -/
def pyReprStrList (l : List String) : String :=
  "[" ++ String.intercalate ", " (l.map (fun s => squote ++ s ++ squote)) ++ "]"

/-- Python `str(x)` for an optional string attribute used raw in an
f-string (`None` prints as `"None"`). -/
def pyShowOpt (a : Option String) : String :=
  match a with
  | some s => s
  | Option.none => "None"

/-- First 140 characters (`preview[:140]`). -/
def take140 (s : String) : String := String.mk (s.data.take 140)

/-- `str.replace("\n", " ")` (single-character replacement is a map). -/
def newlineToSpace (s : String) : String :=
  String.mk (s.data.map (fun c => if c = '\n' then ' ' else c))

/-- A comment as the bot reads it. -/
structure Comment where
  fullname : Option String
  id : String
  body : Option String
  author : Option String

/-- `getattr(comment, "fullname", None) or f"t1_{comment.id}"`. -/
def commentFullname (c : Comment) : String := pyOrStr c.fullname ("t1_" ++ c.id)

/-- The per-tag loop of `process_comment` / the submission branch:
`for tag in tags: print(resolve_card_cached(tag))`, threading the cache;
a raise aborts the loop and propagates (boolean false). -/
def resolveAllPrint (env : Env) (st : BotState) :
    List String → BotState × List Event × Bool
  | [] => (st, [], true)
  | t :: rest =>
    match resolve_card_cached env st t with
    | (some (msg, st1), ev) =>
      let (st2, evs, ok) := resolveAllPrint env st1 rest
      (st2, ev ++ [.printed msg] ++ evs, ok)
    | (Option.none, ev) => (st, ev, false)

/-- `process_comment(comment)`: dedup on the fullname, print the item
line, resolve and print each unique tag, maybe reply.  The boolean is
false iff an exception escaped (only resolution can raise). -/
def process_comment (cfg : Config) (env : Env) (st : BotState) (c : Comment) :
    BotState × List Event × Bool :=
  let fullname := commentFullname c
  if fullname ∈ st.processed then (st, [], true)
  else
    let st1 : BotState := { st with processed := st.processed ++ [fullname] }
    let body := pyOrStr c.body ""
    let tags := unique_in_order (extract_card_tags body)
    let line := "[comment] " ++ c.id ++ " :: " ++ take140 (newlineToSpace body)
      ++ " :: tags=" ++ pyReprStrList tags
    if tags = [] then (st1, [.printed line], true)
    else
      match resolveAllPrint env st1 tags with
      | (st2, evs, true) =>
        let (st3, evs2, ok) :=
          maybe_reply cfg env st2 { author := c.author, fullId := fullname } tags
        (st3, .printed line :: (evs ++ evs2), ok)
      | (st2, evs, false) => (st2, .printed line :: evs, false)

/-- A submission as the bot reads it.  `commentsListing` models
`submission.comments.replace_more(limit=0)` followed by
`submission.comments.list()`: `.error ()` if that raised. -/
structure Submission where
  fullname : Option String
  id : String
  title : Option String
  selftext : Option String
  author : Option String
  commentsListing : Except Unit (List Comment)

/-- `getattr(submission, "fullname", None) or f"t3_{submission.id}"`. -/
def submissionFullname (s : Submission) : String :=
  pyOrStr s.fullname ("t3_" ++ s.id)

/-- The `for comment in submission.comments.list(): process_comment(comment)`
loop.  A raise inside `process_comment` escapes the loop (it is then caught
by the surrounding `except`), so the loop stops at the first failure. -/
def processCommentsLoop (cfg : Config) (env : Env) (st : BotState) :
    List Comment → BotState × List Event
  | [] => (st, [])
  | c :: rest =>
    match process_comment cfg env st c with
    | (st1, evs, true) =>
      let (st2, evs2) := processCommentsLoop cfg env st1 rest
      (st2, evs ++ evs2)
    | (st1, evs, false) => (st1, evs)

/-- The first half of `process_submission_and_comments(submission)`: the
submission's own unseen-to-processed transition (dedup guard, item line,
tag resolution, optional reply).  The boolean is false iff an exception
escaped this block, which only resolution can cause. -/
def process_submission_block (cfg : Config) (env : Env) (st : BotState)
    (s : Submission) : BotState × List Event × Bool :=
  let fullname := submissionFullname s
  if fullname ∈ st.processed then (st, [], true)
  else
    let st1 : BotState := { st with processed := st.processed ++ [fullname] }
    let body := pyOrStr s.title "" ++ "\n" ++ pyOrStr s.selftext ""
    let tags := unique_in_order (extract_card_tags body)
    let line := "[submission] " ++ s.id ++ " :: " ++ pyShowOpt s.title
      ++ " :: tags=" ++ pyReprStrList tags
    if tags = [] then (st1, [.printed line], true)
    else
      match resolveAllPrint env st1 tags with
      | (st2, evs, true) =>
        let (st3, evs2, ok) :=
          maybe_reply cfg env st2 { author := s.author, fullId := fullname } tags
        (st3, .printed line :: (evs ++ evs2), ok)
      | (st2, evs, false) => (st2, .printed line :: evs, false)

/-- `process_submission_and_comments(submission)`: the submission block,
then — regardless of its guard — comment expansion and per-comment
processing inside a `try/except` that logs and swallows any failure. -/
def process_submission_and_comments (cfg : Config) (env : Env) (st : BotState)
    (s : Submission) : BotState × List Event × Bool :=
  let (stA, evA, okA) := process_submission_block cfg env st s
  if ¬ okA then (stA, evA, false)
  else
    match s.commentsListing with
    | .error _ => (stA, evA, true)
    | .ok comments =>
      let (stB, evB) := processCommentsLoop cfg env stA comments
      (stB, evA ++ evB, true)

/-- Module-level `resolve_card(card_name)` from `main.py`: primary lookup,
fallback if no usable image, compose. -/
def resolve_card (env : Env) (card_name : String) : Except Unit String :=
  match search_card_details env.net env.riftboundHost card_name with
  | .error e => .error e
  | .ok details =>
    let image_url : Option String := detailsImage details
    match (if strTruthy image_url then .ok image_url
           else fallback_search_card_image env.net env.apitcgHost
             env.apitcgTemplate card_name) with
    | .error e => .error e
    | .ok image_url2 => .ok (compose_card_reply card_name image_url2 details)

/-! ## Specification-side definitions

These follow the words of the spec (not the code) and are compared with
the embedded code by the theorems below. -/

/-- The spec's pattern holds at the start of `s`: an open double-bracket,
one or more characters that are not a bracket, a close double-bracket
(and then arbitrary remaining text). -/
def MatchesHere (s : List Char) : Prop :=
  ∃ c rest, c ≠ [] ∧ (∀ x ∈ c, notBracket x) ∧
    s = '[' :: '[' :: (c ++ ']' :: ']' :: rest)

/-- Declarative description of the raw match list of a text, following the
spec: the text decomposes into gaps and pattern spans, left to right and
non-overlapping, where no position strictly before a span (and no position
at all after the last span) starts a match.  `TagSpans s l` says `l` is
the list of span contents of `s`. -/
inductive TagSpans : List Char → List (List Char) → Prop where
  | nil : ∀ s, (∀ t, t <:+ s → ¬ MatchesHere t) → TagSpans s []
  | cons : ∀ gap c tail out,
      c ≠ [] → (∀ x ∈ c, notBracket x) →
      (∀ t, t <:+ gap ++ '[' :: '[' :: (c ++ ']' :: ']' :: tail) →
        ('[' :: '[' :: (c ++ ']' :: ']' :: tail)).length < t.length →
        ¬ MatchesHere t) →
      TagSpans tail out →
      TagSpans (gap ++ '[' :: '[' :: (c ++ ']' :: ']' :: tail)) (c :: out)

/-- A response from which the candidate loop of `search_card_details`
obtains its card object: success status, a present payload, and an
extractable card object (the spec's "success status with a parseable,
non-empty result", where a result counts as non-empty exactly when the
spec's own card-object extraction rule yields a card from it). -/
def usableResp (r : Nat × PyVal) : Bool :=
  r.1 == 200 && !(isNoneVal r.2) && (first_card_obj r.2).isSome

/-! ## Concrete collaborators and items used in the theorems -/

/-- A network on which every request raises. -/
def netErrAll : Net := fun _ _ => .error ()

/-- A network on which every request completes with a 404 and empty body. -/
def net404 : Net := fun _ _ => .ok (404, PyVal.none)

/-- Environment over `net404`, fallback unconfigured. -/
def env404 : Env :=
  ⟨net404, "api.riftcodex.com", "", "", Option.none, fun _ _ => false⟩

/-- Environment over `netErrAll`. -/
def envErr : Env :=
  ⟨netErrAll, "api.riftcodex.com", "", "", Option.none, fun _ _ => false⟩

/-- A network whose card object carries a resolved name different from any
query, plus an image. -/
def netNamed : Net := fun _ _ =>
  .ok (200, .dict [("name", .str "Teemo, the Swift Scout"),
                   ("image", .str "http://img.example/teemo.png")])

/-- Environment over `netNamed`. -/
def envNamed : Env :=
  ⟨netNamed, "api.riftcodex.com", "", "", Option.none, fun _ _ => false⟩

/-- A network where the primary host yields a card object without any
image and the fallback host yields one with an image. -/
def netFb : Net := fun h _ =>
  if h = "fb.example" then
    .ok (200, .dict [("image", .str "http://fb.example/img.png")])
  else .ok (200, .dict [("name", .str "Jinx")])

/-- Environment over `netFb` with the fallback configured. -/
def envFb : Env :=
  ⟨netFb, "api.riftcodex.com", "fb.example", "/c?name=\x7bname\x7d",
   Option.none, fun _ _ => false⟩

/-- A network where the first candidate path returns a 200 whose body is a
bare JSON string (parseable, non-empty, but yielding no card object) and
every other path returns a card object with an image. -/
def netSecond : Net := fun _ p =>
  if p = "/cards/name?name=Jinx" then .ok (200, .str "hello")
  else .ok (200, .dict [("image", .str "http://c2.example/i.png")])

/-- Reply-disabled configuration. -/
def cfgOff : Config := ⟨false, "", ""⟩

/-- Reply-enabled configuration with credentials. -/
def cfgOn : Config := ⟨true, "botuser", "pw"⟩

/-- A comment mentioning the same card three times in two spellings. -/
def cAaA : Comment := ⟨Option.none, "c1", some "[[A]] [[a]] [[A]]", some "alice"⟩

/-- A submission with one tag-free comment under it. -/
def sOne : Submission :=
  ⟨Option.none, "s1", some "hello [[B]]", some "", some "bob",
   .ok [⟨Option.none, "c9", some "no tags here", some "carol"⟩]⟩

/-! ## Helper lemmas -/

theorem dropWhile_self (p : α → Bool) (l : List α) :
    (l.dropWhile p).dropWhile p = l.dropWhile p := by
  induction l with
  | nil => rfl
  | cons a l ih =>
    rw [List.dropWhile_cons]
    split
    · exact ih
    · rw [List.dropWhile_cons]
      simp [*]

theorem head_not_of_dropWhile_self {p : α → Bool} (x : α) (xs : List α)
    (h : (x :: xs).dropWhile p = x :: xs) : p x = false := by
  by_contra hx
  rw [Bool.not_eq_false] at hx
  rw [List.dropWhile_cons, if_pos hx] at h
  have hsub : List.Sublist (xs.dropWhile p) xs := List.dropWhile_sublist p
  have := hsub.length_le
  rw [h] at this
  simp at this

theorem pyStripL_dropWhile (l : List Char) :
    (pyStripL l).dropWhile isPySpace = pyStripL l := by
  unfold pyStripL
  set r1 := l.dropWhile isPySpace with hr1
  have h1 : r1.dropWhile isPySpace = r1 := dropWhile_self _ _
  have hpre : (r1.reverse.dropWhile isPySpace).reverse <+: r1 := by
    have hs : r1.reverse.dropWhile isPySpace <:+ r1.reverse :=
      List.dropWhile_suffix _
    have := List.reverse_prefix.mpr hs
    simpa using this
  cases hx : (r1.reverse.dropWhile isPySpace).reverse with
  | nil => simp
  | cons x xs =>
    rw [hx] at hpre
    obtain ⟨u, hu⟩ := hpre
    rw [List.cons_append] at hu
    have hpx : isPySpace x = false := by
      apply head_not_of_dropWhile_self x (xs ++ u)
      rw [hu, h1]
    rw [List.dropWhile_cons, if_neg (by simp [hpx])]

theorem pyStripL_idem (l : List Char) : pyStripL (pyStripL l) = pyStripL l := by
  have h1 : (pyStripL l).dropWhile isPySpace = pyStripL l := pyStripL_dropWhile l
  have h2 : (pyStripL l).reverse.dropWhile isPySpace = (pyStripL l).reverse := by
    show ((((l.dropWhile isPySpace).reverse.dropWhile
        isPySpace).reverse).reverse).dropWhile isPySpace = _
    rw [List.reverse_reverse, dropWhile_self, pyStripL]
    rw [List.reverse_reverse]
  show (((pyStripL l).dropWhile isPySpace).reverse.dropWhile isPySpace).reverse = pyStripL l
  rw [h1, h2, List.reverse_reverse]

theorem pyStripL_subset {x : Char} {l : List Char} (h : x ∈ pyStripL l) : x ∈ l := by
  unfold pyStripL at h
  rw [List.mem_reverse] at h
  have hsub : List.Sublist ((l.dropWhile isPySpace).reverse.dropWhile isPySpace)
      (l.dropWhile isPySpace).reverse := List.dropWhile_sublist isPySpace
  have h2 := hsub.subset h
  rw [List.mem_reverse] at h2
  exact (List.dropWhile_sublist isPySpace).subset h2

theorem findSome?_forall {α β : Type} {P : β → Prop} {f : α → Option β}
    (hf : ∀ a b, f a = some b → P b) :
    ∀ (l : List α) (b : β), l.findSome? f = some b → P b := by
  intro l
  induction l with
  | nil => intro b h; simp at h
  | cons a l ih =>
    intro b h
    rw [List.findSome?_cons] at h
    cases hfa : f a with
    | some v => rw [hfa] at h; cases h; exact hf a b hfa
    | none => rw [hfa] at h; exact ih b h

/-! ## C10: blank card names -/

/-- C10: for every card name that is empty or whitespace-only,
`search_card_details` returns the empty mapping and
`fallback_search_card_image` returns nothing — and this holds for every
network collaborator, so no HTTP lookup is performed. -/
theorem blank_name_no_lookup (net : Net) (host fbHost fbTmpl name : String)
    (h : pyStrip name = "") :
    search_card_details net host name = .ok Option.none ∧
    fallback_search_card_image net fbHost fbTmpl name = .ok Option.none := by
  constructor
  · simp [search_card_details, h]
  · simp [fallback_search_card_image, h]

/-- Witness for C10 at the whitespace-only name `"  "`. -/
theorem blank_name_no_lookup_witness :
    search_card_details net404 "api.riftcodex.com" "  " = .ok Option.none ∧
    fallback_search_card_image net404 "fb.example" "/c" "  " = .ok Option.none :=
  blank_name_no_lookup net404 "api.riftcodex.com" "fb.example" "/c" "  " (by decide)

/-! ## C2: resolver error behaviour -/

/-- C2 counterexample: with a network collaborator on which requests
raise, the resolver raises — `search_card_details` and `resolve_card`
propagate the exception instead of producing a "not found" message, so
"any network or parsing failure ... is swallowed locally" fails for
network failures. -/
theorem resolver_raises_on_network_error :
    search_card_details netErrAll "api.riftcodex.com" "Jinx" = .error () ∧
    resolve_card envErr "Jinx" = .error () := ⟨rfl, rfl⟩

theorem tryCandidates_isOk (net : Net) (host nm : String)
    (h : ∀ p, (net host p).isOk = true) :
    ∀ (ps : List String) (lastP : PyVal),
      (tryCandidates net host nm ps lastP).isOk = true := by
  intro ps
  induction ps with
  | nil =>
    intro lastP
    unfold tryCandidates
    split <;> rfl
  | cons p rest ih =>
    intro lastP
    have hp := h p
    unfold tryCandidates
    cases hq : net host p with
    | error e => rw [hq] at hp; simp [Except.toBool] at hp
    | ok r =>
      obtain ⟨status, payload⟩ := r
      dsimp only
      split
      · split
        · exact ih payload
        · rfl
      · exact ih payload

theorem search_isOk (net : Net) (host nm : String)
    (h : ∀ p, (net host p).isOk = true) :
    (search_card_details net host nm).isOk = true := by
  unfold search_card_details
  dsimp only
  split
  · rfl
  · exact tryCandidates_isOk net host _ h _ _

theorem fallback_isOk (net : Net) (fbHost fbTmpl nm : String)
    (h : ∀ hst p, (net hst p).isOk = true) :
    (fallback_search_card_image net fbHost fbTmpl nm).isOk = true := by
  unfold fallback_search_card_image
  dsimp only
  split
  · rfl
  · split
    · rfl
    · cases hq : net (pyStrip fbHost) (replaceAll (pyStrip fbTmpl) "\x7bname\x7d"
        (urlquote (pyStrip nm))) with
      | error e =>
        have := h (pyStrip fbHost) (replaceAll (pyStrip fbTmpl) "\x7bname\x7d"
          (urlquote (pyStrip nm)))
        rw [hq] at this
        simp [Except.toBool] at this
      | ok r =>
        obtain ⟨status, payload⟩ := r
        dsimp only
        split
        · rfl
        · split <;> rfl

/-- C2 (amended): status failures, unusable payloads and parse failures
(which `_http_get_json` converts into string payloads) are swallowed — the
loop falls through to the next candidate, then the fallback, then a "not
found" message — and the resolver completes whenever no HTTP request
raises.  A raised HTTP request, however, propagates out of the resolver
(see `resolver_raises_on_network_error`). -/
theorem resolver_ok_of_net_total (env : Env) (name : String)
    (h : ∀ hst p, (env.net hst p).isOk = true) :
    (resolve_card env name).isOk = true := by
  unfold resolve_card
  cases hs : search_card_details env.net env.riftboundHost name with
  | error e =>
    have := search_isOk env.net env.riftboundHost name (h env.riftboundHost)
    rw [hs] at this
    simp [Except.toBool] at this
  | ok details =>
    dsimp only
    split
    all_goals first
      | rfl
      | (rename_i heq
         split at heq
         · cases heq
         · have := fallback_isOk env.net env.apitcgHost env.apitcgTemplate name h
           rw [heq] at this
           simp [Except.toBool] at this)

/-- Witness for C2's amended theorem over the total network `net404`. -/
theorem resolver_ok_of_net_total_witness :
    (resolve_card env404 "Jinx").isOk = true :=
  resolver_ok_of_net_total env404 "Jinx" (fun _ _ => rfl)

/-! ## C5: shape of the composed message -/

/-- C5 counterexample: the primary lookup produces a card object whose
resolved name is "Teemo, the Swift Scout", yet the composed message puts
the original query "jinx" on the first line — `compose_card_reply` is
called with the query and ignores the resolved name. -/
theorem compose_ignores_resolved_name :
    search_card_details netNamed "api.riftcodex.com" "jinx" =
      .ok (some
        { raw := .dict [("name", .str "Teemo, the Swift Scout"),
                        ("image", .str "http://img.example/teemo.png")]
          name := .str "Teemo, the Swift Scout"
          image_url := some "http://img.example/teemo.png"
          source := "riftbound" }) ∧
    resolve_card envNamed "jinx" =
      .ok "jinx\n\nImage: http://img.example/teemo.png" ∧
    ("jinx" : String) ≠ "Teemo, the Swift Scout" :=
  ⟨rfl, rfl, by decide⟩

theorem prefix_append_left {α : Type} (a : List α) {b c : List α}
    (h : b <+: c) : a ++ b <+: a ++ c := by
  obtain ⟨u, hu⟩ := h
  exact ⟨u, by rw [List.append_assoc, hu]⟩

/-- C5 (amended): whenever resolution completes, the composed message
starts with the trimmed original query (or `"(unknown card)"` when the
query strips to empty), then a blank line, then `Image: `; the resolved
name carried in the returned card object is not used. -/
theorem resolve_message_first_line (env : Env) (name msg : String)
    (h : resolve_card env name = .ok msg) :
    (((if pyStrip name = "" then "(unknown card)" else pyStrip name)
        ++ "\n\nImage: ").data).isPrefixOf msg.data = true := by
  rw [List.isPrefixOf_iff_prefix]
  unfold resolve_card at h
  split at h
  · cases h
  · dsimp only at h
    split at h
    next e heq => cases h
    next iu2 heq =>
      rename_i details _ _
      cases h
      have hshape : compose_card_reply name iu2 details =
          (if pyStrip name = "" then "(unknown card)" else pyStrip name) ++
            (if strTruthy iu2 then "\n\nImage: " ++ iu2.getD ""
             else "\n\nImage: (not found)") := by
        unfold compose_card_reply
        dsimp only
        split
        · rw [String.append_assoc]
        · rfl
      rw [hshape, String.data_append]
      by_cases hiu : strTruthy iu2 = true
      · rw [if_pos hiu, String.data_append]
        exact prefix_append_left _ (List.prefix_append _ _)
      · rw [if_neg hiu]
        exact prefix_append_left _ (by decide)

/-- Witness for C5's amended theorem at the query "Jinx" over `net404`. -/
theorem resolve_message_first_line_witness :
    (((if pyStrip "Jinx" = "" then "(unknown card)" else pyStrip "Jinx")
        ++ "\n\nImage: ").data).isPrefixOf
      ("Jinx\n\nImage: (not found)" : String).data = true :=
  resolve_message_first_line env404 "Jinx" "Jinx\n\nImage: (not found)" rfl

/-! ## C3: the fallback chain -/

theorem imageProbe_nonempty (card : List (String × PyVal)) (k u : String)
    (h : imageProbe card k = some u) : u ≠ "" := by
  unfold imageProbe at h
  split at h
  · split at h
    · cases h
      assumption
    · cases h
  · cases h

theorem extract_image_url_nonempty (card : List (String × PyVal)) (u : String)
    (h : extract_image_url card = some u) : u ≠ "" := by
  unfold extract_image_url at h
  cases hv : imageKeys.findSome? (imageProbe card) with
  | some v =>
    rw [hv] at h
    dsimp only at h
    cases h
    exact findSome?_forall (fun k b hb => imageProbe_nonempty card k b hb) _ _ hv
  | none =>
    rw [hv] at h
    cases hImg : dictGet card "images" <;> rw [hImg] at h <;> dsimp only at h <;>
      first
        | cases h
        | exact findSome?_forall (fun k b hb => imageProbe_nonempty _ k b hb) _ _ h

theorem fallback_image_nonempty (net : Net) (fbHost fbTmpl nm u : String)
    (h : fallback_search_card_image net fbHost fbTmpl nm = .ok (some u)) :
    u ≠ "" := by
  unfold fallback_search_card_image at h
  dsimp only at h
  split at h
  · cases h
  · split at h
    · cases h
    · split at h
      · cases h
      · split at h
        · cases h
        · split at h
          · cases h
          next card hcard =>
            injection h with h2
            exact extract_image_url_nonempty card u h2

/-- C3: the Card Resolver's fallback chain as seen by
`resolve_card_cached` on a cache miss whose primary lookup completed
without a usable image URL: (1) if the fallback lookup completes with an
image URL `u`, the composed message carries `u`; (2) if the fallback
completes empty-handed, the message ends in `Image: (not found)`; (3) when
the fallback host or path template is unconfigured (blank), the fallback
lookup is a no-op returning nothing, for every network and name. -/
theorem fallback_chain (env : Env) (st : BotState) (name : String)
    (hmiss : cacheGet st.cache (pyLower (pyStrip name)) = Option.none)
    (dOpt : Option CardDetails)
    (hsearch : search_card_details env.net env.riftboundHost name = .ok dOpt)
    (hnoimg : strTruthy (detailsImage dOpt) = false) :
    (∀ u, fallback_search_card_image env.net env.apitcgHost env.apitcgTemplate name
        = .ok (some u) →
      resolve_card_cached env st name =
        (some ((if pyStrip name = "" then "(unknown card)" else pyStrip name)
            ++ "\n\nImage: " ++ u,
          { st with cache := st.cache ++ [(pyLower (pyStrip name),
              (if pyStrip name = "" then "(unknown card)" else pyStrip name)
                ++ "\n\nImage: " ++ u)] }),
         [.resolverCall name])) ∧
    (fallback_search_card_image env.net env.apitcgHost env.apitcgTemplate name
        = .ok Option.none →
      resolve_card_cached env st name =
        (some ((if pyStrip name = "" then "(unknown card)" else pyStrip name)
            ++ "\n\nImage: (not found)",
          { st with cache := st.cache ++ [(pyLower (pyStrip name),
              (if pyStrip name = "" then "(unknown card)" else pyStrip name)
                ++ "\n\nImage: (not found)")] }),
         [.resolverCall name])) ∧
    (∀ (net2 : Net) (h2 t2 n2 : String), pyStrip h2 = "" ∨ pyStrip t2 = "" →
      fallback_search_card_image net2 h2 t2 n2 = .ok Option.none) := by
  refine ⟨?_, ?_, ?_⟩
  · intro u hfb
    have hu : u ≠ "" :=
      fallback_image_nonempty env.net env.apitcgHost env.apitcgTemplate name u hfb
    unfold resolve_card_cached
    dsimp only
    rw [hmiss]
    dsimp only
    rw [hsearch]
    dsimp only
    rw [if_neg (by simp [hnoimg]), hfb]
    dsimp only
    unfold compose_card_reply
    rw [if_pos (by simp [strTruthy, hu])]
    try rfl
  · intro hfb
    unfold resolve_card_cached
    dsimp only
    rw [hmiss]
    dsimp only
    rw [hsearch]
    dsimp only
    rw [if_neg (by simp [hnoimg]), hfb]
    dsimp only
    unfold compose_card_reply
    rw [if_neg (by simp [strTruthy])]
    try rfl
  · intro net2 h2 t2 n2 hblank
    unfold fallback_search_card_image
    dsimp only
    rw [if_pos hblank]
    try rfl

/-- Witness for C3 over `netFb` (primary card object without an image,
configured fallback with one). -/
theorem fallback_chain_witness :
    resolve_card_cached envFb ⟨[], []⟩ "Jinx" =
      (some ("Jinx\n\nImage: http://fb.example/img.png",
        ⟨[], [("jinx", "Jinx\n\nImage: http://fb.example/img.png")]⟩),
       [.resolverCall "Jinx"]) :=
  (fallback_chain envFb ⟨[], []⟩ "Jinx" rfl
      (some (mkDetails "Jinx" [("name", PyVal.str "Jinx")])) rfl rfl).1
    "http://fb.example/img.png" rfl

/-! ## C6: candidate priority of the primary lookup -/

theorem usableResp_parts {r : Nat × PyVal} (h : usableResp r = true) :
    r.1 = 200 ∧ isNoneVal r.2 = false ∧ (first_card_obj r.2).isSome = true := by
  simp only [usableResp, Bool.and_eq_true, beq_iff_eq, Bool.not_eq_true'] at h
  exact ⟨h.1.1, h.1.2, h.2⟩

theorem tryCandidates_first (net : Net) (host nm : String) (r : Nat × PyVal)
    (card : List (String × PyVal)) :
    ∀ (pre : List String) (path : String) (rest : List String) (lastP : PyVal),
    (∀ q ∈ pre, ∃ rq, net host q = .ok rq ∧ usableResp rq = false) →
    net host path = .ok r → usableResp r = true → first_card_obj r.2 = some card →
    tryCandidates net host nm (pre ++ path :: rest) lastP =
      .ok (some (mkDetails nm card)) := by
  intro pre
  induction pre with
  | nil =>
    intro path rest lastP _ hr hu hcard
    obtain ⟨s, p⟩ := r
    obtain ⟨h200, hnone, _⟩ := usableResp_parts hu
    rw [List.nil_append]
    unfold tryCandidates
    rw [hr]
    dsimp only
    rw [if_pos ⟨h200, by simp [hnone]⟩]
    simp only at hcard
    rw [hcard]
  | cons q pre ih =>
    intro path rest lastP hpre hr hu hcard
    obtain ⟨rq, hrq, hun⟩ := hpre q (List.mem_cons_self q pre)
    obtain ⟨sq, pq⟩ := rq
    rw [List.cons_append]
    unfold tryCandidates
    rw [hrq]
    dsimp only
    by_cases hcond : sq = 200 ∧ ¬ isNoneVal pq = true
    · rw [if_pos hcond]
      have hfirst : first_card_obj pq = Option.none := by
        cases hf : first_card_obj pq with
        | none => rfl
        | some c =>
          exfalso
          have hnn : isNoneVal pq = false := by
            cases hb : isNoneVal pq
            · rfl
            · exact absurd hb hcond.2
          have : usableResp (sq, pq) = true := by
            simp [usableResp, hcond.1, hnn, hf]
          rw [hun] at this
          cases this
      rw [hfirst]
      exact ih path rest pq (fun x hx => hpre x (List.mem_cons_of_mem q hx)) hr hu hcard
    · rw [if_neg hcond]
      exact ih path rest pq (fun x hx => hpre x (List.mem_cons_of_mem q hx)) hr hu hcard

/-- C6: for a non-blank card name the primary lookup tries the four
candidate shapes in the fixed order exact-name, path-segment, search,
generic filter; the first candidate answering with a 200, a present
payload and an extractable card object supplies the result, and the
answers of the candidates after it are irrelevant (any network agreeing
on the candidates up to and including the successful one yields the same
result, so later candidates are not consulted). -/
theorem candidate_priority (net : Net) (host name : String)
    (hname : ¬ pyStrip name = "")
    (pre : List String) (path : String) (rest : List String)
    (hdecomp : candidatePaths (urlquote (pyStrip name)) = pre ++ path :: rest)
    (hpre : ∀ q ∈ pre, ∃ rq, net host q = .ok rq ∧ usableResp rq = false)
    (r : Nat × PyVal) (hr : net host path = .ok r) (hu : usableResp r = true)
    (card : List (String × PyVal)) (hcard : first_card_obj r.2 = some card) :
    (candidatePaths (urlquote (pyStrip name)) =
      ["/cards/name?name=" ++ urlquote (pyStrip name),
       "/cards/name/" ++ urlquote (pyStrip name),
       "/cards/search?name=" ++ urlquote (pyStrip name),
       "/cards?name=" ++ urlquote (pyStrip name)]) ∧
    search_card_details net host name = .ok (some (mkDetails (pyStrip name) card)) ∧
    (∀ net2 : Net, (∀ q ∈ pre, net2 host q = net host q) →
      net2 host path = net host path →
      search_card_details net2 host name =
        .ok (some (mkDetails (pyStrip name) card))) := by
  refine ⟨rfl, ?_, ?_⟩
  · unfold search_card_details
    dsimp only
    rw [if_neg hname, hdecomp]
    exact tryCandidates_first net host (pyStrip name) r card pre path rest
      PyVal.none hpre hr hu hcard
  · intro net2 hagree hpath
    unfold search_card_details
    dsimp only
    rw [if_neg hname, hdecomp]
    refine tryCandidates_first net2 host (pyStrip name) r card pre path rest
      PyVal.none ?_ ?_ hu hcard
    · intro q hq
      obtain ⟨rq, hrq, hun⟩ := hpre q hq
      exact ⟨rq, by rw [hagree q hq, hrq], hun⟩
    · rw [hpath, hr]

/-- Witness for C6 over `netSecond`: the first candidate answers 200 with
a parseable non-empty but unusable body, the second supplies the card. -/
theorem candidate_priority_witness :
    search_card_details netSecond "api.riftcodex.com" "Jinx" =
      .ok (some (mkDetails "Jinx" [("image", PyVal.str "http://c2.example/i.png")])) :=
  (candidate_priority netSecond "api.riftcodex.com" "Jinx" (by decide)
      ["/cards/name?name=Jinx"] "/cards/name/Jinx"
      ["/cards/search?name=Jinx", "/cards?name=Jinx"] rfl
      (fun q hq => by
        rw [List.mem_singleton] at hq
        subst hq
        exact ⟨(200, PyVal.str "hello"), rfl, rfl⟩)
      (200, PyVal.dict [("image", PyVal.str "http://c2.example/i.png")]) rfl rfl
      [("image", PyVal.str "http://c2.example/i.png")] rfl).2.1

/-! ## C7: normalization for the cache and mention dedup -/

theorem cacheGet_append_last (cache : List (String × String)) (k v : String)
    (h : cacheGet cache k = Option.none) :
    cacheGet (cache ++ [(k, v)]) k = some v := by
  unfold cacheGet at h ⊢
  rw [List.find?_append]
  cases hf : cache.find? (fun kv => kv.1 = k) with
  | some kv =>
    simp at h
    have hp := List.find?_some hf
    have hm := List.mem_of_find?_eq_some hf
    simp at hp
    exact absurd hp (h kv.1 kv.2 (by simpa using hm))
  | none =>
    simp [List.find?]

/-- After a completed resolution the normalized key maps to the returned
message in the cache. -/
theorem resolve_cached_success (env : Env) (st : BotState) (n msg : String)
    (st1 : BotState) (ev : List Event)
    (h : resolve_card_cached env st n = (some (msg, st1), ev)) :
    cacheGet st1.cache (pyLower (pyStrip n)) = some msg := by
  unfold resolve_card_cached at h
  dsimp only at h
  split at h
  next m hc =>
    injection h with h1 h2
    injection h1 with h1
    injection h1 with hmsg hst
    subst hmsg
    subst hst
    exact hc
  next hc =>
    split at h
    · cases h
    next details hs =>
      split at h
      · cases h
      next iu2 heq =>
        injection h with h1 h2
        injection h1 with h1
        injection h1 with hmsg hst
        subst hmsg
        subst hst
        exact cacheGet_append_last st.cache _ _ hc

/-- C7: the key for both within-item mention dedup and the resolution
cache is trim-then-lowercase.  (1) Any two names with the same normalized
key hit the same cache entry once the first resolution completed: the
second resolution returns the identical message and state without a
resolver invocation.  (2) An item whose body is `[[A]] [[a]] [[A]]`
produces exactly one resolver invocation and one printed reply line, with
the stripped first-seen spelling `A` used for the resolver call and in the
displayed tag list. -/
theorem normalization_cache :
    (∀ (env : Env) (st : BotState) (n1 n2 msg : String) (st1 : BotState)
        (ev : List Event),
      pyLower (pyStrip n1) = pyLower (pyStrip n2) →
      resolve_card_cached env st n1 = (some (msg, st1), ev) →
      resolve_card_cached env st1 n2 = (some (msg, st1), [])) ∧
    process_comment cfgOff env404 ⟨[], []⟩ cAaA =
      (⟨["t1_c1"], [("a", "A\n\nImage: (not found)")]⟩,
       [.printed ("[comment] c1 :: [[A]] [[a]] [[A]] :: tags="
          ++ pyReprStrList ["A"]),
        .resolverCall "A",
        .printed "A\n\nImage: (not found)"], true) := by
  constructor
  · intro env st n1 n2 msg st1 ev hkey h
    have hcache : cacheGet st1.cache (pyLower (pyStrip n2)) = some msg := by
      rw [← hkey]
      exact resolve_cached_success env st n1 msg st1 ev h
    unfold resolve_card_cached
    dsimp only
    rw [hcache]
  · decide

/-- Witness for C7: resolving `" jinx "` right after `"Jinx"` hits the
cache entry written by the first resolution and returns the identical
message with no resolver invocation. -/
theorem normalization_cache_witness :
    resolve_card_cached env404
        ⟨[], [("jinx", "Jinx\n\nImage: (not found)")]⟩ " jinx " =
      (some ("Jinx\n\nImage: (not found)",
        ⟨[], [("jinx", "Jinx\n\nImage: (not found)")]⟩), []) :=
  normalization_cache.1 env404 ⟨[], []⟩ "Jinx" " jinx "
    "Jinx\n\nImage: (not found)"
    ⟨[], [("jinx", "Jinx\n\nImage: (not found)")]⟩
    [.resolverCall "Jinx"] (by decide) rfl

/-! ## C4: per-item dedup -/

theorem resolve_cached_processed (env : Env) (st : BotState) (n msg : String)
    (st1 : BotState) (ev : List Event)
    (h : resolve_card_cached env st n = (some (msg, st1), ev)) :
    st1.processed = st.processed := by
  unfold resolve_card_cached at h
  dsimp only at h
  split at h
  next m hc =>
    injection h with h1 h2
    injection h1 with h1
    injection h1 with hmsg hst
    rw [← hst]
  next hc =>
    split at h
    · cases h
    next details hs =>
      split at h
      · cases h
      next iu2 heq =>
        injection h with h1 h2
        injection h1 with h1
        injection h1 with hmsg hst
        rw [← hst]

theorem resolveAllPrint_processed (cfg : Config) (env : Env) :
    ∀ (ts : List String) (st st1 : BotState) (evs : List Event) (ok : Bool),
      resolveAllPrint env st ts = (st1, evs, ok) → st1.processed = st.processed := by
  intro ts
  induction ts with
  | nil =>
    intro st st1 evs ok h
    injection h with h1 h2
    rw [← h1]
  | cons t ts ih =>
    intro st st1 evs ok h
    unfold resolveAllPrint at h
    split at h
    next msg st' ev hres =>
      cases hrec : resolveAllPrint env st' ts with
      | mk st2 r2 =>
        rw [hrec] at h
        dsimp only at h
        injection h with h1 h2
        rw [← h1]
        rw [ih st' st2 r2.1 r2.2 (by rw [hrec])]
        exact resolve_cached_processed env st t msg st' ev hres
    next ev hres =>
      injection h with h1 h2
      rw [← h1]

theorem resolveAll_processed (env : Env) :
    ∀ (ts : List String) (st st1 : BotState) (lines : List String)
      (evs : List Event) (ok : Bool),
      resolveAll env st ts = (st1, lines, evs, ok) → st1.processed = st.processed := by
  intro ts
  induction ts with
  | nil =>
    intro st st1 lines evs ok h
    injection h with h1 h2
    rw [← h1]
  | cons t ts ih =>
    intro st st1 lines evs ok h
    unfold resolveAll at h
    split at h
    next msg st' ev hres =>
      cases hrec : resolveAll env st' ts with
      | mk st2 r2 =>
        rw [hrec] at h
        dsimp only at h
        injection h with h1 h2
        rw [← h1]
        rw [ih st' st2 r2.1 r2.2.1 r2.2.2 (by rw [hrec])]
        exact resolve_cached_processed env st t msg st' ev hres
    next ev hres =>
      injection h with h1 h2
      rw [← h1]

theorem maybe_reply_processed (cfg : Config) (env : Env) (st : BotState)
    (thing : Thing) (names : List String) (st1 : BotState) (evs : List Event)
    (ok : Bool) (h : maybe_reply cfg env st thing names = (st1, evs, ok)) :
    st1.processed = st.processed := by
  unfold maybe_reply at h
  split at h
  · injection h with h1 h2; rw [← h1]
  · split at h
    · injection h with h1 h2; rw [← h1]
    · split at h
      · injection h with h1 h2; rw [← h1]
      · split at h
        next st' lines evs' hres =>
          split at h
          · injection h with h1 h2
            rw [← h1]
            exact resolveAll_processed env _ st st' lines evs' true hres
          · injection h with h1 h2
            rw [← h1]
            exact resolveAll_processed env _ st st' lines evs' true hres
        next st' lines evs' hres =>
          injection h with h1 h2
          rw [← h1]
          exact resolveAll_processed env _ st st' lines evs' false hres

theorem process_comment_skip (cfg : Config) (env : Env) (st : BotState)
    (c : Comment) (h : commentFullname c ∈ st.processed) :
    process_comment cfg env st c = (st, [], true) := by
  unfold process_comment
  dsimp only
  rw [if_pos h]

theorem process_comment_processed_eq (cfg : Config) (env : Env) (st : BotState)
    (c : Comment) (hmem : commentFullname c ∉ st.processed) :
    (process_comment cfg env st c).1.processed =
      st.processed ++ [commentFullname c] := by
  unfold process_comment
  dsimp only
  rw [if_neg hmem]
  split
  · rfl
  · cases hrp : resolveAllPrint env
        { st with processed := st.processed ++ [commentFullname c] }
        (unique_in_order (extract_card_tags (pyOrStr c.body ""))) with
    | mk st2 r2 =>
      obtain ⟨evs2, ok2⟩ := r2
      have h2 : st2.processed = st.processed ++ [commentFullname c] :=
        resolveAllPrint_processed cfg env _ _ st2 evs2 ok2 hrp
      cases ok2 with
      | true =>
        dsimp only
        cases hmr : maybe_reply cfg env st2
            { author := c.author, fullId := commentFullname c }
            (unique_in_order (extract_card_tags (pyOrStr c.body ""))) with
        | mk st3 r3 =>
          dsimp only
          rw [maybe_reply_processed cfg env st2 _ _ st3 r3.1 r3.2 (by rw [hmr])]
          exact h2
      | false =>
        dsimp only
        exact h2

theorem process_comment_mono (cfg : Config) (env : Env) (st : BotState)
    (c : Comment) : st.processed ⊆ (process_comment cfg env st c).1.processed := by
  by_cases hmem : commentFullname c ∈ st.processed
  · rw [process_comment_skip cfg env st c hmem]
    exact fun x hx => hx
  · rw [process_comment_processed_eq cfg env st c hmem]
    exact List.subset_append_left _ _

theorem process_comment_marks (cfg : Config) (env : Env) (st : BotState)
    (c : Comment) :
    commentFullname c ∈ (process_comment cfg env st c).1.processed := by
  by_cases hmem : commentFullname c ∈ st.processed
  · rw [process_comment_skip cfg env st c hmem]
    exact hmem
  · rw [process_comment_processed_eq cfg env st c hmem]
    simp

theorem processCommentsLoop_mono (cfg : Config) (env : Env) :
    ∀ (cs : List Comment) (st : BotState),
      st.processed ⊆ (processCommentsLoop cfg env st cs).1.processed := by
  intro cs
  induction cs with
  | nil => intro st; exact fun x hx => hx
  | cons c cs ih =>
    intro st
    unfold processCommentsLoop
    cases hpc : process_comment cfg env st c with
    | mk st1 r1 =>
      obtain ⟨evs1, ok1⟩ := r1
      have hm : st.processed ⊆ st1.processed := by
        have := process_comment_mono cfg env st c
        rw [hpc] at this
        exact this
      cases ok1 with
      | true =>
        dsimp only
        exact fun x hx => ih st1 (hm hx)
      | false =>
        dsimp only
        exact hm

theorem processCommentsLoop_skip (cfg : Config) (env : Env) :
    ∀ (cs : List Comment) (st : BotState),
      (∀ c ∈ cs, commentFullname c ∈ st.processed) →
      processCommentsLoop cfg env st cs = (st, []) := by
  intro cs
  induction cs with
  | nil => intro st _; rfl
  | cons c cs ih =>
    intro st h
    unfold processCommentsLoop
    rw [process_comment_skip cfg env st c (h c (List.mem_cons_self c cs))]
    dsimp only
    rw [ih st (fun x hx => h x (List.mem_cons_of_mem c hx))]
    rfl

theorem process_submission_block_skip (cfg : Config) (env : Env)
    (st : BotState) (s : Submission)
    (hmem : submissionFullname s ∈ st.processed) :
    process_submission_block cfg env st s = (st, [], true) := by
  unfold process_submission_block
  dsimp only
  rw [if_pos hmem]

theorem process_submission_block_processed_eq (cfg : Config) (env : Env)
    (st : BotState) (s : Submission)
    (hmem : submissionFullname s ∉ st.processed) :
    (process_submission_block cfg env st s).1.processed =
      st.processed ++ [submissionFullname s] := by
  unfold process_submission_block
  dsimp only
  rw [if_neg hmem]
  split
  · rfl
  · cases hrp : resolveAllPrint env
        { st with processed := st.processed ++ [submissionFullname s] }
        (unique_in_order (extract_card_tags
          (pyOrStr s.title "" ++ "\n" ++ pyOrStr s.selftext ""))) with
    | mk st2 r2 =>
      obtain ⟨evs2, ok2⟩ := r2
      have h2 : st2.processed = st.processed ++ [submissionFullname s] :=
        resolveAllPrint_processed cfg env _ _ st2 evs2 ok2 hrp
      cases ok2 with
      | true =>
        dsimp only
        cases hmr : maybe_reply cfg env st2
            { author := s.author, fullId := submissionFullname s }
            (unique_in_order (extract_card_tags
              (pyOrStr s.title "" ++ "\n" ++ pyOrStr s.selftext ""))) with
        | mk st3 r3 =>
          dsimp only
          rw [maybe_reply_processed cfg env st2 _ _ st3 r3.1 r3.2 (by rw [hmr])]
          exact h2
      | false =>
        dsimp only
        exact h2

theorem process_submission_block_mono (cfg : Config) (env : Env)
    (st : BotState) (s : Submission) :
    st.processed ⊆ (process_submission_block cfg env st s).1.processed ∧
    submissionFullname s ∈ (process_submission_block cfg env st s).1.processed := by
  by_cases hmem : submissionFullname s ∈ st.processed
  · rw [process_submission_block_skip cfg env st s hmem]
    exact ⟨fun x hx => hx, hmem⟩
  · rw [process_submission_block_processed_eq cfg env st s hmem]
    exact ⟨List.subset_append_left _ _, by simp⟩

theorem process_submission_marks (cfg : Config) (env : Env) (st : BotState)
    (s : Submission) :
    submissionFullname s ∈
      (process_submission_and_comments cfg env st s).1.processed := by
  unfold process_submission_and_comments
  cases hbl : process_submission_block cfg env st s with
  | mk stA rA =>
    obtain ⟨evA, okA⟩ := rA
    have hiA : submissionFullname s ∈ stA.processed := by
      have := (process_submission_block_mono cfg env st s).2
      rw [hbl] at this
      exact this
    cases okA with
    | false => exact hiA
    | true =>
      dsimp only
      cases hcl : s.commentsListing with
      | error e => exact hiA
      | ok cs =>
        dsimp only
        cases hloop : processCommentsLoop cfg env stA cs with
        | mk stB evB =>
          dsimp only
          have := processCommentsLoop_mono cfg env cs stA
          rw [hloop] at this
          exact this hiA

theorem process_submission_skip (cfg : Config) (env : Env) (st : BotState)
    (s : Submission)
    (hmem : submissionFullname s ∈ st.processed)
    (hcs : ∀ cs, s.commentsListing = .ok cs →
      ∀ c ∈ cs, commentFullname c ∈ st.processed) :
    process_submission_and_comments cfg env st s = (st, [], true) := by
  unfold process_submission_and_comments
  rw [process_submission_block_skip cfg env st s hmem]
  dsimp only
  cases hcl : s.commentsListing with
  | error e => rfl
  | ok cs =>
    dsimp only
    rw [processCommentsLoop_skip cfg env cs st (hcs cs hcl)]
    rfl

/-- C4: the shared per-item processing routine transitions an item from
unseen to processed exactly once.  For a comment: the routine marks its
identifier, and a second invocation on the resulting state is a strict
no-op (same state, no side effects).  For a submission: the routine marks
its identifier, and — provided the first invocation left every listed
comment marked as well, which holds whenever its comment loop was not cut
short by a raised resolution — a second invocation is a strict no-op. -/
theorem process_item_once (cfg : Config) (env : Env) (st : BotState)
    (c : Comment) (s : Submission)
    (hcs : ∀ cs, s.commentsListing = .ok cs →
      ∀ c2 ∈ cs, commentFullname c2 ∈
        (process_submission_and_comments cfg env st s).1.processed) :
    commentFullname c ∈ (process_comment cfg env st c).1.processed ∧
    process_comment cfg env (process_comment cfg env st c).1 c =
      ((process_comment cfg env st c).1, [], true) ∧
    submissionFullname s ∈
      (process_submission_and_comments cfg env st s).1.processed ∧
    process_submission_and_comments cfg env
        (process_submission_and_comments cfg env st s).1 s =
      ((process_submission_and_comments cfg env st s).1, [], true) := by
  refine ⟨process_comment_marks cfg env st c, ?_, ?_, ?_⟩
  · exact process_comment_skip cfg env _ c (process_comment_marks cfg env st c)
  · exact process_submission_marks cfg env st s
  · exact process_submission_skip cfg env _ s
      (process_submission_marks cfg env st s) hcs

/-- Witness for C4 at a concrete submission with one comment (and the
comment `cAaA`), over `net404`. -/
theorem process_item_once_witness :
    process_submission_and_comments cfgOff env404
        (process_submission_and_comments cfgOff env404 ⟨[], []⟩ sOne).1 sOne =
      ((process_submission_and_comments cfgOff env404 ⟨[], []⟩ sOne).1, [], true) :=
  (process_item_once cfgOff env404 ⟨[], []⟩ cAaA sOne (by
      intro cs heq c2 hc2
      rw [show sOne.commentsListing =
        Except.ok [⟨Option.none, "c9", some "no tags here", some "carol"⟩]
        from rfl] at heq
      injection heq with h
      subst h
      rw [List.mem_singleton] at hc2
      subst hc2
      decide)).2.2.2

/-! ## C8: reply guards -/

theorem resolveAll_replyFails_irrel (n : Net) (rh ah tm : String)
    (me : Option String) (f g : String → String → Bool) :
    ∀ (ts : List String) (st : BotState),
      resolveAll ⟨n, rh, ah, tm, me, f⟩ st ts =
      resolveAll ⟨n, rh, ah, tm, me, g⟩ st ts := by
  intro ts
  induction ts with
  | nil => intro st; rfl
  | cons t ts ih =>
    intro st
    unfold resolveAll
    have hr : resolve_card_cached ⟨n, rh, ah, tm, me, f⟩ st t =
        resolve_card_cached ⟨n, rh, ah, tm, me, g⟩ st t := rfl
    rw [hr]
    cases hres : resolve_card_cached ⟨n, rh, ah, tm, me, g⟩ st t with
    | mk ores ev =>
      cases ores with
      | none => rfl
      | some p =>
        obtain ⟨msg, st1⟩ := p
        dsimp only
        rw [ih st1]

/-- C8: `maybe_reply` never invokes the platform reply capability when
replying is disabled, when credentials are absent, when there are no
messages, or when the item's author matches the authenticated identity
case-insensitively; when the identity is undetermined it proceeds (fails
open) and posts; and a failure of the reply post itself is swallowed —
the entire observable outcome is independent of whether the post raises,
and the routine reports success. -/
theorem maybe_reply_guards :
    (∀ (cfg : Config) (env : Env) (st : BotState) (thing : Thing)
        (names : List String), cfg.reply_enabled = false →
      maybe_reply cfg env st thing names = (st, [], true)) ∧
    (∀ (cfg : Config) (env : Env) (st : BotState) (thing : Thing)
        (names : List String), cfg.username = "" ∨ cfg.password = "" →
      maybe_reply cfg env st thing names = (st, [], true)) ∧
    (∀ (cfg : Config) (env : Env) (st : BotState) (thing : Thing)
        (names : List String), unique_in_order names = [] →
      maybe_reply cfg env st thing names = (st, [], true)) ∧
    (∀ (cfg : Config) (env : Env) (st : BotState) (thing : Thing)
        (names : List String) (m a : String), env.me = some m →
      thing.author = some a → pyLower a = pyLower m →
      maybe_reply cfg env st thing names = (st, [], true)) ∧
    (∀ (cfg : Config) (env : Env) (st : BotState) (thing : Thing)
        (names : List String) (st1 : BotState) (lines : List String)
        (evs : List Event),
      cfg.reply_enabled = true → ¬ (cfg.username = "" ∨ cfg.password = "") →
      env.me = Option.none →
      resolveAll env st (unique_in_order names) = (st1, lines, evs, true) →
      lines ≠ [] →
      maybe_reply cfg env st thing names =
        (st1, evs ++ [.replyCall thing.fullId
          (String.intercalate "\n\n---\n\n" lines)], true)) ∧
    (∀ (n : Net) (rh ah tm : String) (me : Option String)
        (f g : String → String → Bool) (cfg : Config) (st : BotState)
        (thing : Thing) (names : List String),
      maybe_reply cfg ⟨n, rh, ah, tm, me, f⟩ st thing names =
      maybe_reply cfg ⟨n, rh, ah, tm, me, g⟩ st thing names) := by
  refine ⟨?_, ?_, ?_, ?_, ?_, ?_⟩
  · intro cfg env st thing names h
    unfold maybe_reply
    rw [if_pos (by simp [h])]
  · intro cfg env st thing names h
    unfold maybe_reply
    split
    · rfl
    · rfl
  · intro cfg env st thing names h
    unfold maybe_reply
    split
    · rfl
    · split
      · rfl
      · split
        · rfl
        · rw [h]
          dsimp only [resolveAll]
          rfl
  · intro cfg env st thing names m a hme ha hlow
    unfold maybe_reply
    split
    · rfl
    · split
      · rfl
      · rw [if_pos (by rw [hme, ha]; dsimp only; exact beq_iff_eq.mpr hlow)]
  · intro cfg env st thing names st1 lines evs hen hcred hme hres hlines
    unfold maybe_reply
    rw [if_neg (by simp [hen]), if_neg hcred,
      if_neg (by rw [hme]; cases thing.author <;> simp), hres]
    dsimp only
    rw [if_neg hlines]
  · intro n rh ah tm me f g cfg st thing names
    unfold maybe_reply
    rw [resolveAll_replyFails_irrel n rh ah tm me f g]

/-- Witness for C8 with replying disabled. -/
theorem maybe_reply_guards_witness :
    maybe_reply cfgOff env404 ⟨[], []⟩ ⟨some "alice", "t1_c1"⟩ ["A"] =
      (⟨[], []⟩, [], true) :=
  maybe_reply_guards.1 cfgOff env404 ⟨[], []⟩ ⟨some "alice", "t1_c1"⟩ ["A"] rfl

/-! ## C1 and C9: the tag scanner against the declarative span spec -/

theorem takeWhile_all_append {p : Char → Bool} {a : List Char} (b : List Char)
    (ha : ∀ x ∈ a, p x) : (a ++ b).takeWhile p = a ++ b.takeWhile p := by
  induction a with
  | nil => simp
  | cons x xs ih =>
    rw [List.cons_append, List.takeWhile_cons,
      if_pos (ha x (List.mem_cons_self x xs)), List.cons_append]
    rw [ih (fun y hy => ha y (List.mem_cons_of_mem x hy))]

theorem dropWhile_all_append {p : Char → Bool} {a : List Char} (b : List Char)
    (ha : ∀ x ∈ a, p x) : (a ++ b).dropWhile p = b.dropWhile p := by
  induction a with
  | nil => simp
  | cons x xs ih =>
    rw [List.cons_append, List.dropWhile_cons,
      if_pos (ha x (List.mem_cons_self x xs))]
    exact ih (fun y hy => ha y (List.mem_cons_of_mem x hy))

/-- `headTagMatch` succeeds exactly on the spec's pattern: two opening
brackets, a non-empty bracket-free group, two closing brackets. -/
theorem headTagMatch_some_iff {s c tail} :
    headTagMatch s = some (c, tail) ↔
      (c ≠ [] ∧ (∀ x ∈ c, notBracket x) ∧
        s = '[' :: '[' :: (c ++ ']' :: ']' :: tail)) := by
  constructor
  · intro h
    unfold headTagMatch at h
    split at h
    next =>
      rename_i r
      split at h
      next =>
        rename_i cx cs tail0 htw hdw
        injection h with h1
        injection h1 with hcc htail
        subst hcc
        subst htail
        refine ⟨by simp, ?_, ?_⟩
        · intro x hx
          exact List.mem_takeWhile_imp (htw ▸ hx)
        · have hr : r = (cx :: cs) ++ (']' :: ']' :: tail0) := by
            have hsplit : r.takeWhile notBracket ++ r.dropWhile notBracket = r :=
              List.takeWhile_append_dropWhile notBracket r
            conv_lhs => rw [← hsplit]
            rw [htw, hdw]
          rw [hr]
      next => cases h
    next => cases h
  · rintro ⟨hc, hnb, rfl⟩
    obtain ⟨cx, cs, rfl⟩ : ∃ cx cs, c = cx :: cs := by
      cases c with
      | nil => exact absurd rfl hc
      | cons cx cs => exact ⟨cx, cs, rfl⟩
    have h1 : ((cx :: cs) ++ ']' :: ']' :: tail).takeWhile notBracket = cx :: cs := by
      rw [takeWhile_all_append _ hnb, List.takeWhile_cons, if_neg (by decide)]
      simp
    have h2 : ((cx :: cs) ++ ']' :: ']' :: tail).dropWhile notBracket
        = ']' :: ']' :: tail := by
      rw [dropWhile_all_append _ hnb, List.dropWhile_cons, if_neg (by decide)]
    simp only [headTagMatch]
    rw [h1, h2]
    rfl

theorem headTagMatch_length {s c tail} (h : headTagMatch s = some (c, tail)) :
    tail.length < s.length := by
  obtain ⟨hc, hnb, rfl⟩ := headTagMatch_some_iff.mp h
  simp [List.length_append]
  omega

theorem scanTagsF_fuel : ∀ (f : Nat) (s : List Char) (g : Nat),
    s.length ≤ f → s.length ≤ g → scanTagsF f s = scanTagsF g s := by
  intro f
  induction f with
  | zero =>
    intro s g hf hg
    have hs : s = [] := List.eq_nil_of_length_eq_zero (Nat.le_zero.mp hf)
    subst hs
    cases g <;> rfl
  | succ f ih =>
    intro s g hf hg
    cases s with
    | nil => cases g <;> rfl
    | cons a rest =>
      cases g with
      | zero => simp at hg
      | succ g2 =>
        unfold scanTagsF
        cases hm : headTagMatch (a :: rest) with
        | some p =>
          obtain ⟨c, tail⟩ := p
          have hlen := headTagMatch_length hm
          simp only [List.length_cons] at hf hg hlen
          dsimp only
          rw [ih tail g2 (by omega) (by omega)]
        | none =>
          simp only [List.length_cons] at hf hg
          dsimp only
          exact ih rest g2 (by omega) (by omega)

theorem scanTags_step {s c tail} (h : headTagMatch s = some (c, tail)) :
    scanTags s = c :: scanTags tail := by
  cases s with
  | nil => simp [headTagMatch] at h
  | cons a rest =>
    have hlen := headTagMatch_length h
    simp only [List.length_cons] at hlen
    have e1 : scanTags (a :: rest) = scanTagsF (rest.length + 1) (a :: rest) := rfl
    rw [e1]
    unfold scanTagsF
    rw [h]
    dsimp only
    rw [show scanTags tail = scanTagsF tail.length tail from rfl]
    rw [scanTagsF_fuel rest.length tail tail.length (by omega) (Nat.le_refl _)]

theorem scanTags_nomatch {a : Char} {rest : List Char}
    (h : headTagMatch (a :: rest) = Option.none) :
    scanTags (a :: rest) = scanTags rest := by
  have e1 : scanTags (a :: rest) = scanTagsF (rest.length + 1) (a :: rest) := rfl
  rw [e1]
  unfold scanTagsF
  rw [h]
  rfl

theorem not_MatchesHere_iff {s : List Char} :
    ¬ MatchesHere s ↔ headTagMatch s = Option.none := by
  constructor
  · intro hn
    cases h : headTagMatch s with
    | some p =>
      obtain ⟨hc, hnb, heq⟩ := headTagMatch_some_iff.mp (h.trans (by rw [Prod.mk.eta]))
      exact absurd ⟨p.1, p.2, hc, hnb, heq⟩ hn
    | none => rfl
  · intro h
    rintro ⟨c, rest, hc, hnb, rfl⟩
    rw [headTagMatch_some_iff.mpr ⟨hc, hnb, rfl⟩] at h
    cases h

theorem scanTags_nil_of_nomatch :
    ∀ s : List Char, (∀ t, t <:+ s → ¬ MatchesHere t) → scanTags s = [] := by
  intro s
  induction s with
  | nil => intro _; rfl
  | cons a rest ih =>
    intro h
    rw [scanTags_nomatch (not_MatchesHere_iff.mp (h (a :: rest) List.suffix_rfl))]
    exact ih (fun t ht => h t (ht.trans (List.suffix_cons a rest)))

theorem scanTags_gap : ∀ (gap m : List Char),
    (∀ t, t <:+ gap ++ m → m.length < t.length → ¬ MatchesHere t) →
    scanTags (gap ++ m) = scanTags m := by
  intro gap
  induction gap with
  | nil => intro m _; rfl
  | cons a gap ih =>
    intro m h
    rw [List.cons_append]
    have hm : headTagMatch (a :: (gap ++ m)) = Option.none := by
      apply not_MatchesHere_iff.mp
      apply h (a :: (gap ++ m)) (by rw [List.cons_append])
      simp [List.length_append]
      omega
    rw [scanTags_nomatch hm]
    exact ih m (fun t ht hlen =>
      h t (by rw [List.cons_append]; exact ht.trans (List.suffix_cons _ _)) hlen)

/-- Soundness: a declarative span decomposition forces the scanner's
output. -/
theorem TagSpans_scanTags {s : List Char} {l : List (List Char)}
    (h : TagSpans s l) : scanTags s = l := by
  induction h with
  | nil s hno => exact scanTags_nil_of_nomatch s hno
  | cons gap c tail out hc hnb hgap htail ih =>
    rw [scanTags_gap gap _ hgap,
      scanTags_step (headTagMatch_some_iff.mpr ⟨hc, hnb, rfl⟩), ih]

theorem TagSpans_cons_of_nomatch {a : Char} {rest : List Char}
    {l : List (List Char)} (hnm : ¬ MatchesHere (a :: rest))
    (h : TagSpans rest l) : TagSpans (a :: rest) l := by
  cases h with
  | nil _ hno =>
    apply TagSpans.nil
    intro t ht
    rw [List.suffix_cons_iff] at ht
    cases ht with
    | inl he => rw [he]; exact hnm
    | inr hs => exact hno t hs
  | cons gap c tail out hc hnb hgap htail =>
    have hcond : ∀ t, t <:+ (a :: gap) ++ '[' :: '[' :: (c ++ ']' :: ']' :: tail) →
        ('[' :: '[' :: (c ++ ']' :: ']' :: tail)).length < t.length →
        ¬ MatchesHere t := by
      intro t ht hlen
      rw [List.cons_append, List.suffix_cons_iff] at ht
      cases ht with
      | inl he => rw [he]; exact hnm
      | inr hs => exact hgap t hs hlen
    have := TagSpans.cons (a :: gap) c tail out hc hnb hcond htail
    rw [List.cons_append] at this
    exact this

/-- Completeness: the scanner's output always admits the declarative span
decomposition. -/
theorem scanTags_TagSpans (s : List Char) : TagSpans s (scanTags s) := by
  have H : ∀ (n : Nat) (s : List Char), s.length ≤ n → TagSpans s (scanTags s) := by
    intro n
    induction n with
    | zero =>
      intro s hs
      have h0 : s = [] := List.eq_nil_of_length_eq_zero (Nat.le_zero.mp hs)
      subst h0
      exact TagSpans.nil [] (fun t ht => by
        rw [List.suffix_nil] at ht
        subst ht
        rintro ⟨c, rest, hc, hnb, heq⟩
        cases heq)
    | succ n ih =>
      intro s hs
      cases s with
      | nil =>
        exact TagSpans.nil [] (fun t ht => by
          rw [List.suffix_nil] at ht
          subst ht
          rintro ⟨c, rest, hc, hnb, heq⟩
          cases heq)
      | cons a rest =>
        cases hm : headTagMatch (a :: rest) with
        | some p =>
          obtain ⟨c, tail⟩ := p
          rw [scanTags_step hm]
          obtain ⟨hc, hnb, heq⟩ := headTagMatch_some_iff.mp hm
          rw [heq]
          have hlen := headTagMatch_length hm
          simp only [List.length_cons] at hs hlen
          have htail : TagSpans tail (scanTags tail) := ih tail (by omega)
          have hcond : ∀ t,
              t <:+ [] ++ '[' :: '[' :: (c ++ ']' :: ']' :: tail) →
              ('[' :: '[' :: (c ++ ']' :: ']' :: tail)).length < t.length →
              ¬ MatchesHere t := by
            intro t ht hl
            exact absurd (List.IsSuffix.length_le ht)
              (by simp only [List.nil_append]; omega)
          have := TagSpans.cons [] c tail (scanTags tail) hc hnb hcond htail
          rw [List.nil_append] at this
          exact this
        | none =>
          rw [scanTags_nomatch hm]
          simp only [List.length_cons] at hs
          exact TagSpans_cons_of_nomatch (not_MatchesHere_iff.mpr hm)
            (ih rest (by omega))
  exact H s.length s (Nat.le_refl _)

/-- C1: `extract_card_tags` returns exactly the trimmed contents of the
non-overlapping pattern spans, in left-to-right order with duplicates
kept and empty-after-trim matches discarded: the scanner's raw output is
the unique list admitted by the declarative span decomposition
`TagSpans`, `extract_card_tags` is its strip-and-drop-empty image, and
the two cited examples evaluate as claimed. -/
theorem extract_card_tags_spec :
    (∀ s : String, TagSpans s.data (scanTags s.data)) ∧
    (∀ (s : String) (l : List (List Char)), TagSpans s.data l →
      l = scanTags s.data) ∧
    (∀ s : String, extract_card_tags s = (scanTags s.data).filterMap (fun m =>
      if pyStripL m = [] then Option.none else some (String.mk (pyStripL m)))) ∧
    extract_card_tags "I love [[Teemo, Scout]] and [[  Jinx ]]!" =
      ["Teemo, Scout", "Jinx"] ∧
    extract_card_tags "[[   ]] [[A]]" = ["A"] :=
  ⟨fun s => scanTags_TagSpans s.data,
   fun _ l h => (TagSpans_scanTags h).symm,
   fun _ => rfl,
   by decide,
   by decide⟩

/-- Witness for C1's uniqueness part at the text `"[[A]]"`. -/
theorem extract_card_tags_spec_witness :
    ([['A']] : List (List Char)) = scanTags ("[[A]]" : String).data :=
  extract_card_tags_spec.2.1 "[[A]]" [['A']] (by
    have h := scanTags_TagSpans ("[[A]]" : String).data
    rwa [show scanTags ("[[A]]" : String).data = [['A']] from by decide] at h)

theorem TagSpans_content {s : List Char} {l : List (List Char)}
    (h : TagSpans s l) : ∀ c ∈ l, c ≠ [] ∧ ∀ x ∈ c, notBracket x := by
  induction h with
  | nil => intro c hc; cases hc
  | cons gap c tail out hc hnb hgap htail ih =>
    intro c2 hc2
    rw [List.mem_cons] at hc2
    cases hc2 with
    | inl he => subst he; exact ⟨hc, hnb⟩
    | inr hm => exact ih c2 hm

theorem scanTags_content (s c : List Char) (h : c ∈ scanTags s) :
    c ≠ [] ∧ ∀ x ∈ c, notBracket x :=
  TagSpans_content (scanTags_TagSpans s) c h

/-- C9: every string returned by `extract_card_tags` is non-empty, equal
to its own trimmed form, and free of square brackets. -/
theorem extract_card_tags_wellformed (text m : String)
    (h : m ∈ extract_card_tags text) :
    m ≠ "" ∧ pyStrip m = m ∧ ∀ ch ∈ m.data, ch ≠ '[' ∧ ch ≠ ']' := by
  unfold extract_card_tags at h
  rw [List.mem_filterMap] at h
  obtain ⟨raw, hraw, hm⟩ := h
  dsimp only at hm
  split at hm
  · cases hm
  next hne =>
    injection hm with hm
    subst hm
    refine ⟨?_, ?_, ?_⟩
    · intro hcon
      exact hne (by simpa using congrArg String.data hcon)
    · exact congrArg String.mk (pyStripL_idem raw)
    · intro ch hch
      have hsub : ch ∈ raw := pyStripL_subset hch
      have hnb := (scanTags_content text.data raw hraw).2 ch hsub
      simp only [notBracket, Bool.not_eq_eq_eq_not, Bool.not_true,
        Bool.or_eq_false_iff, decide_eq_false_iff_not] at hnb
      exact hnb

/-- Witness for C9 at the text `"x [[ Foo ]]"`. -/
theorem extract_card_tags_wellformed_witness :
    ("Foo" : String) ≠ "" ∧ pyStrip "Foo" = "Foo" ∧
      ∀ ch ∈ ("Foo" : String).data, ch ≠ '[' ∧ ch ≠ ']' :=
  extract_card_tags_wellformed "x [[ Foo ]]" "Foo" (by decide)

end RiftBot
